import Mathlib

set_option maxHeartbeats 1000000

/-!
Verification of the Batch Job Completion Tracker
(`wait_for_jobs_completion` from the Lab 1 notebook) and of the Lab 2
custom inference entry points (`input_fn`, `predict_fn`).

The tracker is embedded as an explicit state machine: the external
status provider (`describe_jobs`) is a function from the polling-pass
index and a job identifier to either an error (a raised exception) or a
job description.  Every observable action of the tracker — each status
query, each printed line, each sleep between passes, and each line of
the final summary — is recorded in an event trace, so that claims about
"never re-queried", "no sleep", "report once per job in order" become
statements about the trace.  The loop itself is driven by a fuel
parameter: a result of `none` means the fuel was exhausted, so
non-termination of the source loop is the statement that the run is
`none` for every fuel.
-/

/-- Description of a job as read from the status provider's response:
the display name (`jobName`), the current status string (`status`), and
the optional failure reason (`statusReason`). -/
structure JobDesc where
  jobName : String
  status : String
  statusReason : Option String
deriving Repr, DecidableEq

/-- Observable actions of the tracker, in the order they happen:
`query t id` is a `describe_jobs` call for `id` during polling pass `t`;
`completedLine` is the "Job ... completed with status ..." print;
`reasonLine` is the "Failure reason: ..." print;
`statusLine` is the "Job ... is ..." print for a non-terminal status;
`sleep s` is the `time.sleep(s)` between passes;
`finalQuery id` is the `describe_jobs` call in the final summary;
`finalLine` is one line of the final status summary. -/
inductive Event where
  | query (t : Nat) (id : String)
  | completedLine (id name status : String)
  | reasonLine (reason : String)
  | statusLine (id name status : String)
  | sleep (secs : Nat)
  | finalQuery (id : String)
  | finalLine (id name status : String)
deriving Repr, DecidableEq

/-- The external status provider: given the polling-pass index and a job
identifier, it either raises (modelled as `Except.error`) or returns the
job description.  The pass index lets the reported status change over
time, as the real AWS Batch service does. -/
abbrev Provider := Nat → String → Except String JobDesc

/-- A provider that never raises, given by a plain status function. -/
def totalProvider (P : Nat → String → JobDesc) : Provider :=
  fun t id => .ok (P t id)

/-- `status in ['SUCCEEDED', 'FAILED']` from the source. -/
def isTerminal (s : String) : Bool :=
  s == "SUCCEEDED" || s == "FAILED"

/-- Events emitted when a job is observed terminal: the query, the
completion line, and the failure reason when the status is FAILED and a
reason is present (`if status == 'FAILED' and 'statusReason' in job`). -/
def terminalEvents (t : Nat) (id : String) (d : JobDesc) : List Event :=
  [.query t id, .completedLine id d.jobName d.status] ++
    (if d.status = "FAILED" then
      match d.statusReason with
      | some r => [.reasonLine r]
      | none => []
    else [])

/-- One polling pass: the `for job_id in job_ids` body of the source
loop.  Jobs already in the completed set are skipped (`continue`); every
other job is queried; terminal jobs are added to the completed set.  The
completed set is kept as a duplicate-free list (insertion only happens
under a membership check, exactly as `set.add` behaves). -/
def pollJobs (p : Provider) (t : Nat) :
    List String → List String → Except String (List String × List Event)
  | [], completed => .ok (completed, [])
  | id :: rest, completed =>
    if id ∈ completed then
      pollJobs p t rest completed
    else
      match p t id with
      | .error e => .error e
      | .ok d =>
        if isTerminal d.status then
          if id ∈ completed then
            (pollJobs p t rest completed).map
              (fun pr => (pr.1, .query t id :: pr.2))
          else
            (pollJobs p t rest (completed ++ [id])).map
              (fun pr => (pr.1, terminalEvents t id d ++ pr.2))
        else
          (pollJobs p t rest completed).map
            (fun pr =>
              (pr.1, .query t id :: .statusLine id d.jobName d.status :: pr.2))

/-- The `while len(completed_jobs) < len(job_ids)` loop, driven by fuel.
Returns `none` when the fuel runs out, `some (.error e)` when a status
query raised, and `some (.ok (passes, completed, trace))` on normal
exit, where `passes` counts the polling passes executed. -/
def waitLoop (p : Provider) (jobIds : List String) (interval : Nat) :
    Nat → Nat → List String →
      Option (Except String (Nat × List String × List Event))
  | 0, _, _ => none
  | fuel + 1, t, completed =>
    if completed.length < jobIds.length then
      match pollJobs p t jobIds completed with
      | .error e => some (.error e)
      | .ok (completed', evs) =>
        if completed'.length < jobIds.length then
          (waitLoop p jobIds interval fuel (t + 1) completed').map
            (fun r => r.map
              (fun x => (x.1, x.2.1, evs ++ Event.sleep interval :: x.2.2)))
        else
          some (.ok (t + 1, completed', evs))
    else
      some (.ok (t, completed, []))

/-- The final status summary: `for job_id in job_ids`, re-query and
print one line, in the order the identifiers were supplied. -/
def finalSummary (p : Provider) (t : Nat) :
    List String → Except String (List Event)
  | [] => .ok []
  | id :: rest =>
    match p t id with
    | .error e => .error e
    | .ok d =>
      (finalSummary p t rest).map
        (fun evs => .finalQuery id :: .finalLine id d.jobName d.status :: evs)

/-- The trace of the final summary for a provider that never raises. -/
def finalEvents (P : Nat → String → JobDesc) (t : Nat) :
    List String → List Event
  | [] => []
  | id :: rest =>
    .finalQuery id :: .finalLine id (P t id).jobName (P t id).status ::
      finalEvents P t rest

/-- `wait_for_jobs_completion(job_ids, check_interval)`: run the polling
loop starting from an empty completed set at pass 0, then the final
summary.  `none` means the fuel ran out (the source loop was still
running); `some (.error e)` means a status query raised and the
exception propagated; `some (.ok (completed, trace))` is a normal
return. -/
def wait_for_jobs_completion (p : Provider) (jobIds : List String)
    (interval : Nat) (fuel : Nat) :
    Option (Except String (List String × List Event)) :=
  match waitLoop p jobIds interval fuel 0 [] with
  | none => none
  | some (.error e) => some (.error e)
  | some (.ok (_tEnd, completed, evs)) =>
    match finalSummary p _tEnd jobIds with
    | .error e => some (.error e)
    | .ok fevs => some (.ok (completed, evs ++ fevs))

/-- Events that can occur inside the polling loop (everything except the
final-summary events). -/
def isLoopEvent : Event → Bool
  | .finalQuery _ => false
  | .finalLine _ _ _ => false
  | _ => true

/-- Recognises the inter-pass suspension event. -/
def isSleep : Event → Bool
  | .sleep _ => true
  | _ => false

/-! ### Lab 2 custom inference script -/

/-- A parsed inference request: the mandatory `sequence` field and the
optional `mode` field of the request JSON. -/
structure Request where
  sequence : String
  mode : Option String
deriving Repr, DecidableEq

/-- `input_fn`: for JSON content, extract the sequence and default a
missing `mode` to `'logits'` (`input_data.get('mode','logits')`); any
other content type raises. -/
def input_fn (req : Request) (content_type : String) :
    Except String (String × String) :=
  if content_type = "application/json" then
    .ok (req.sequence, req.mode.getD "logits")
  else
    .error ("Unsupported content type: " ++ content_type)

/-- Calls made by `predict_fn` to the tokenizer and the model:
`encode seq` is `tokenizer.encode(sequence, ...)`, and `forward h` is
the model invocation, with `h` recording whether
`output_hidden_states=True` was passed. -/
inductive ModelCall where
  | encode (seq : String)
  | forward (outputHiddenStates : Bool)
deriving Repr, DecidableEq

/-- `predict_fn`: tokenize the sequence, then dispatch on the mode —
`'logits'` runs the plain forward pass, `'embeddings'` runs the forward
pass with hidden states, anything else raises `ValueError` without
invoking the model.  The returned list records the tokenizer/model calls
actually performed. -/
def predict_fn (sequence mode : String) :
    List ModelCall × Except String String :=
  let calls : List ModelCall := [.encode sequence]
  if mode = "logits" then
    (calls ++ [.forward false], .ok mode)
  else if mode = "embeddings" then
    (calls ++ [.forward true], .ok mode)
  else
    (calls, .error ("Unknown mode: " ++ mode))

/-! ### Helper lemmas about `Except.map` -/

theorem exceptMap_eq_ok {α β : Type} {f : α → β} {x : Except String α}
    {b : β} (h : x.map f = .ok b) : ∃ a, x = .ok a ∧ f a = b := by
  cases x with
  | error e => simp [Except.map] at h
  | ok a => exact ⟨a, rfl, by simpa [Except.map] using h⟩

/-! ### Equations for a single polling pass -/

theorem pollJobs_nil (p : Provider) (t : Nat) (completed : List String) :
    pollJobs p t [] completed = .ok (completed, []) := rfl

theorem pollJobs_cons_mem (p : Provider) (t : Nat) {id : String}
    (rest : List String) {completed : List String} (h : id ∈ completed) :
    pollJobs p t (id :: rest) completed = pollJobs p t rest completed := by
  simp [pollJobs, h]

theorem pollJobs_cons_err (p : Provider) (t : Nat) {id : String}
    (rest : List String) {completed : List String} {e : String}
    (h : id ∉ completed) (he : p t id = .error e) :
    pollJobs p t (id :: rest) completed = .error e := by
  simp [pollJobs, h, he]

theorem pollJobs_cons_term (p : Provider) (t : Nat) {id : String}
    (rest : List String) {completed : List String} {d : JobDesc}
    (h : id ∉ completed) (hok : p t id = .ok d)
    (ht : isTerminal d.status = true) :
    pollJobs p t (id :: rest) completed =
      (pollJobs p t rest (completed ++ [id])).map
        (fun pr => (pr.1, terminalEvents t id d ++ pr.2)) := by
  simp [pollJobs, h, hok, ht]

theorem pollJobs_cons_nonterm (p : Provider) (t : Nat) {id : String}
    (rest : List String) {completed : List String} {d : JobDesc}
    (h : id ∉ completed) (hok : p t id = .ok d)
    (ht : isTerminal d.status = false) :
    pollJobs p t (id :: rest) completed =
      (pollJobs p t rest completed).map
        (fun pr =>
          (pr.1, .query t id :: .statusLine id d.jobName d.status :: pr.2)) := by
  simp [pollJobs, h, hok, ht]

/-! ### Shape of the events emitted for one terminal job -/

theorem terminalEvents_loop (t : Nat) (id : String) (d : JobDesc) :
    ∀ e ∈ terminalEvents t id d, isLoopEvent e = true := by
  intro e he
  unfold terminalEvents at he
  by_cases hs : d.status = "FAILED"
  · simp only [hs, if_pos] at he
    cases hr : d.statusReason with
    | none => rw [hr] at he; simp at he; rcases he with rfl | rfl <;> rfl
    | some r => rw [hr] at he; simp at he; rcases he with rfl | rfl | rfl <;> rfl
  · simp [hs] at he; rcases he with rfl | rfl <;> rfl

theorem terminalEvents_other (t t' : Nat) (id id' : String) (d : JobDesc)
    (h : id' ≠ id) :
    Event.query t' id ∉ terminalEvents t id' d ∧
    ∀ n s, Event.completedLine id n s ∉ terminalEvents t id' d := by
  constructor
  · intro he
    unfold terminalEvents at he
    by_cases hs : d.status = "FAILED"
    · simp only [hs, if_pos] at he
      cases hr : d.statusReason with
      | none => rw [hr] at he; simp at he; exact h he.2.symm
      | some r => rw [hr] at he; simp at he; exact h he.2.symm
    · simp [hs] at he; exact h he.2.symm
  · intro n s he
    unfold terminalEvents at he
    by_cases hs : d.status = "FAILED"
    · simp only [hs, if_pos] at he
      cases hr : d.statusReason with
      | none => rw [hr] at he; simp at he; exact h he.1.symm
      | some r => rw [hr] at he; simp at he; exact h he.1.symm
    · simp [hs] at he; exact h he.1.symm

/-! ### Specification of one polling pass -/

theorem pollJobs_ok_spec (p : Provider) (t : Nat) :
    ∀ (jobs completed c' : List String) (evs : List Event),
      pollJobs p t jobs completed = .ok (c', evs) →
      (∃ ext, c' = completed ++ ext) ∧
      (∀ x ∈ c', x ∈ completed ∨ x ∈ jobs) ∧
      (completed.Nodup → c'.Nodup) ∧
      (∀ e ∈ evs, isLoopEvent e = true) := by
  intro jobs
  induction jobs with
  | nil =>
    intro completed c' evs h
    rw [pollJobs_nil] at h
    obtain ⟨rfl, rfl⟩ : completed = c' ∧ ([] : List Event) = evs := by
      injection h with h'; exact ⟨congrArg Prod.fst h', congrArg Prod.snd h'⟩
    exact ⟨⟨[], by simp⟩, fun x hx => Or.inl hx, fun h => h, by simp⟩
  | cons id rest ih =>
    intro completed c' evs h
    by_cases hid : id ∈ completed
    · rw [pollJobs_cons_mem p t rest hid] at h
      obtain ⟨hext, hmem, hnd, hevs⟩ := ih completed c' evs h
      exact ⟨hext,
        fun x hx => (hmem x hx).imp (fun hc => hc)
          (fun hr => List.mem_cons_of_mem _ hr),
        hnd, hevs⟩
    · cases hq : p t id with
      | error e => rw [pollJobs_cons_err p t rest hid hq] at h; cases h
      | ok d =>
        cases ht : isTerminal d.status with
        | true =>
          rw [pollJobs_cons_term p t rest hid hq ht] at h
          obtain ⟨pr, hpr, hfr⟩ := exceptMap_eq_ok h
          obtain ⟨c0, evs0⟩ := pr
          rw [Prod.mk.injEq] at hfr
          obtain ⟨rfl, rfl⟩ := hfr
          obtain ⟨⟨ext, hext⟩, hmem, hnd, hevs⟩ := ih (completed ++ [id]) c0 evs0 hpr
          refine ⟨⟨id :: ext, by simp [hext]⟩, ?_, ?_, ?_⟩
          · intro x hx
            rcases hmem x hx with hx' | hx'
            · rcases List.mem_append.mp hx' with hx'' | hx''
              · exact Or.inl hx''
              · exact Or.inr (by simp at hx''; simp [hx''])
            · exact Or.inr (List.mem_cons_of_mem _ hx')
          · intro hcnd
            exact hnd (by simp [List.nodup_append, hcnd, hid])
          · intro e he
            rcases List.mem_append.mp he with he' | he'
            · exact terminalEvents_loop t id d e he'
            · exact hevs e he'
        | false =>
          rw [pollJobs_cons_nonterm p t rest hid hq ht] at h
          obtain ⟨pr, hpr, hfr⟩ := exceptMap_eq_ok h
          obtain ⟨c0, evs0⟩ := pr
          rw [Prod.mk.injEq] at hfr
          obtain ⟨rfl, rfl⟩ := hfr
          obtain ⟨hext, hmem, hnd, hevs⟩ := ih completed c0 evs0 hpr
          refine ⟨hext,
            fun x hx => (hmem x hx).imp (fun hc => hc)
              (fun hr => List.mem_cons_of_mem _ hr),
            hnd, ?_⟩
          intro e he
          simp only [List.mem_cons] at he
          rcases he with rfl | rfl | he'
          · rfl
          · rfl
          · exact hevs e he'

theorem pollJobs_total (P : Nat → String → JobDesc) (t : Nat) :
    ∀ (jobs completed : List String),
      ∃ c' evs, pollJobs (totalProvider P) t jobs completed = .ok (c', evs) := by
  intro jobs
  induction jobs with
  | nil => intro completed; exact ⟨completed, [], rfl⟩
  | cons id rest ih =>
    intro completed
    by_cases hid : id ∈ completed
    · obtain ⟨c', evs, hr⟩ := ih completed
      exact ⟨c', evs, by rw [pollJobs_cons_mem _ t rest hid]; exact hr⟩
    · cases ht : isTerminal (P t id).status with
      | true =>
        obtain ⟨c', evs, hr⟩ := ih (completed ++ [id])
        refine ⟨c', terminalEvents t id (P t id) ++ evs, ?_⟩
        rw [pollJobs_cons_term _ t rest hid rfl ht, hr]
        rfl
      | false =>
        obtain ⟨c', evs, hr⟩ := ih completed
        refine ⟨c',
          .query t id :: .statusLine id (P t id).jobName (P t id).status :: evs,
          ?_⟩
        rw [pollJobs_cons_nonterm _ t rest hid rfl ht, hr]
        rfl

theorem pollJobs_terminal_mem (p : Provider) (t : Nat) :
    ∀ (jobs completed c' : List String) (evs : List Event),
      (∀ id ∈ jobs, ∃ d, p t id = .ok d ∧ isTerminal d.status = true) →
      pollJobs p t jobs completed = .ok (c', evs) →
      ∀ id ∈ jobs, id ∈ c' := by
  intro jobs
  induction jobs with
  | nil => intro completed c' evs _ _ id hid; cases hid
  | cons j rest ih =>
    intro completed c' evs hterm h id hid
    by_cases hj : j ∈ completed
    · rw [pollJobs_cons_mem p t rest hj] at h
      have hsub : ∀ x ∈ completed, x ∈ c' := by
        obtain ⟨⟨ext, hext⟩, _, _, _⟩ := pollJobs_ok_spec p t rest completed c' evs h
        intro x hx; rw [hext]; exact List.mem_append_left _ hx
      rcases List.mem_cons.mp hid with rfl | hid'
      · exact hsub id hj
      · exact ih completed c' evs (fun i hi => hterm i (List.mem_cons_of_mem _ hi))
          h id hid'
    · obtain ⟨d, hq, ht⟩ := hterm j (List.mem_cons_self j rest)
      rw [pollJobs_cons_term p t rest hj hq ht] at h
      obtain ⟨pr, hpr, hfr⟩ := exceptMap_eq_ok h
      obtain ⟨c0, evs0⟩ := pr
      rw [Prod.mk.injEq] at hfr
      obtain ⟨rfl, rfl⟩ := hfr
      have hsub : ∀ x ∈ completed ++ [j], x ∈ c0 := by
        obtain ⟨⟨ext, hext⟩, _, _, _⟩ :=
          pollJobs_ok_spec p t rest (completed ++ [j]) c0 evs0 hpr
        intro x hx; rw [hext]; exact List.mem_append_left _ hx
      rcases List.mem_cons.mp hid with rfl | hid'
      · exact hsub id (List.mem_append_right _ (List.mem_singleton_self id))
      · exact ih (completed ++ [j]) c0 evs0
          (fun i hi => hterm i (List.mem_cons_of_mem _ hi)) hpr id hid'

theorem pollJobs_skip (p : Provider) (t : Nat) (id : String) :
    ∀ (jobs completed c' : List String) (evs : List Event),
      id ∈ completed →
      pollJobs p t jobs completed = .ok (c', evs) →
      (∀ t', Event.query t' id ∉ evs) ∧
      (∀ n s, Event.completedLine id n s ∉ evs) := by
  intro jobs
  induction jobs with
  | nil =>
    intro completed c' evs _ h
    rw [pollJobs_nil] at h
    injection h with h'
    rw [Prod.mk.injEq] at h'
    obtain ⟨rfl, rfl⟩ := h'
    exact ⟨fun t' hc => (List.not_mem_nil _ hc), fun n s hc => (List.not_mem_nil _ hc)⟩
  | cons j rest ih =>
    intro completed c' evs hid h
    by_cases hj : j ∈ completed
    · rw [pollJobs_cons_mem p t rest hj] at h
      exact ih completed c' evs hid h
    · have hne : j ≠ id := fun he => hj (he ▸ hid)
      cases hq : p t j with
      | error e => rw [pollJobs_cons_err p t rest hj hq] at h; cases h
      | ok d =>
        cases ht : isTerminal d.status with
        | true =>
          rw [pollJobs_cons_term p t rest hj hq ht] at h
          obtain ⟨pr, hpr, hfr⟩ := exceptMap_eq_ok h
          obtain ⟨c0, evs0⟩ := pr
          rw [Prod.mk.injEq] at hfr
          obtain ⟨rfl, rfl⟩ := hfr
          have hid' : id ∈ completed ++ [j] := List.mem_append_left _ hid
          obtain ⟨ihq, ihc⟩ := ih (completed ++ [j]) c0 evs0 hid' hpr
          obtain ⟨hTq, hTc⟩ := terminalEvents_other t t id j d hne
          constructor
          · intro t' hc
            rcases List.mem_append.mp hc with hc' | hc'
            · exact (terminalEvents_other t t' id j d hne).1 hc'
            · exact ihq t' hc'
          · intro n s hc
            rcases List.mem_append.mp hc with hc' | hc'
            · exact (terminalEvents_other t t id j d hne).2 n s hc'
            · exact ihc n s hc'
        | false =>
          rw [pollJobs_cons_nonterm p t rest hj hq ht] at h
          obtain ⟨pr, hpr, hfr⟩ := exceptMap_eq_ok h
          obtain ⟨c0, evs0⟩ := pr
          rw [Prod.mk.injEq] at hfr
          obtain ⟨rfl, rfl⟩ := hfr
          obtain ⟨ihq, ihc⟩ := ih completed c0 evs0 hid hpr
          constructor
          · intro t' hc
            simp only [List.mem_cons] at hc
            rcases hc with hc' | hc' | hc'
            · exact hne (by injection hc' with _ h2; exact h2.symm)
            · cases hc'
            · exact ihq t' hc'
          · intro n s hc
            simp only [List.mem_cons] at hc
            rcases hc with hc' | hc' | hc'
            · cases hc'
            · cases hc'
            · exact ihc n s hc'

/-! ### Equations for the polling loop -/

theorem waitLoop_zero (p : Provider) (jobIds : List String) (interval t : Nat)
    (completed : List String) :
    waitLoop p jobIds interval 0 t completed = none := rfl

theorem waitLoop_succ_done (p : Provider) (jobIds : List String)
    (interval fuel t : Nat) {completed : List String}
    (h : ¬ completed.length < jobIds.length) :
    waitLoop p jobIds interval (fuel + 1) t completed =
      some (.ok (t, completed, [])) := by
  simp [waitLoop, h]

theorem waitLoop_succ_err (p : Provider) (jobIds : List String)
    (interval fuel t : Nat) {completed : List String} {e : String}
    (h : completed.length < jobIds.length)
    (hp : pollJobs p t jobIds completed = .error e) :
    waitLoop p jobIds interval (fuel + 1) t completed = some (.error e) := by
  simp [waitLoop, h, hp]

theorem waitLoop_succ_exit (p : Provider) (jobIds : List String)
    (interval fuel t : Nat) {completed c' : List String} {evs : List Event}
    (h : completed.length < jobIds.length)
    (hp : pollJobs p t jobIds completed = .ok (c', evs))
    (h2 : ¬ c'.length < jobIds.length) :
    waitLoop p jobIds interval (fuel + 1) t completed =
      some (.ok (t + 1, c', evs)) := by
  simp [waitLoop, h, hp, h2]

theorem waitLoop_succ_next (p : Provider) (jobIds : List String)
    (interval fuel t : Nat) {completed c' : List String} {evs : List Event}
    (h : completed.length < jobIds.length)
    (hp : pollJobs p t jobIds completed = .ok (c', evs))
    (h2 : c'.length < jobIds.length) :
    waitLoop p jobIds interval (fuel + 1) t completed =
      (waitLoop p jobIds interval fuel (t + 1) c').map
        (fun r => r.map
          (fun x => (x.1, x.2.1, evs ++ Event.sleep interval :: x.2.2))) := by
  simp [waitLoop, h, hp, h2]

/-! ### Specification of the polling loop -/

theorem waitLoop_ok_spec (p : Provider) (jobIds : List String)
    (interval : Nat) :
    ∀ (fuel t : Nat) (completed : List String) (tE : Nat)
      (c : List String) (evs : List Event),
      waitLoop p jobIds interval fuel t completed = some (.ok (tE, c, evs)) →
      (∃ ext, c = completed ++ ext) ∧
      (∀ x ∈ c, x ∈ completed ∨ x ∈ jobIds) ∧
      (completed.Nodup → c.Nodup) ∧
      (∀ e ∈ evs, isLoopEvent e = true) := by
  intro fuel
  induction fuel with
  | zero =>
    intro t completed tE c evs h
    rw [waitLoop_zero] at h
    cases h
  | succ fuel ih =>
    intro t completed tE c evs h
    by_cases hlt : completed.length < jobIds.length
    · cases hpoll : pollJobs p t jobIds completed with
      | error e =>
        rw [waitLoop_succ_err p jobIds interval fuel t hlt hpoll] at h
        injection h with h'
        cases h'
      | ok pr =>
        obtain ⟨c', evs1⟩ := pr
        by_cases h2 : c'.length < jobIds.length
        · rw [waitLoop_succ_next p jobIds interval fuel t hlt hpoll h2] at h
          obtain ⟨r, hr, hfr⟩ := Option.map_eq_some'.mp h
          cases r with
          | error e => cases hfr
          | ok x =>
            obtain ⟨tE', c'', evs2⟩ := x
            injection hfr with hfr'
            rw [Prod.mk.injEq, Prod.mk.injEq] at hfr'
            obtain ⟨rfl, rfl, rfl⟩ := hfr'
            obtain ⟨⟨ext1, hext1⟩, hmem1, hnd1, hevs1⟩ :=
              pollJobs_ok_spec p t jobIds completed c' evs1 hpoll
            obtain ⟨⟨ext2, hext2⟩, hmem2, hnd2, hevs2⟩ :=
              ih (t + 1) c' tE' c'' evs2 hr
            refine ⟨⟨ext1 ++ ext2, by rw [hext2, hext1, List.append_assoc]⟩,
              ?_, fun hnd => hnd2 (hnd1 hnd), ?_⟩
            · intro x hx
              rcases hmem2 x hx with hx' | hx'
              · exact (hmem1 x hx').imp (fun hc => hc) (fun hc => hc)
              · exact Or.inr hx'
            · intro e he
              rcases List.mem_append.mp he with he' | he'
              · exact hevs1 e he'
              · simp only [List.mem_cons] at he'
                rcases he' with rfl | he''
                · rfl
                · exact hevs2 e he''
        · rw [waitLoop_succ_exit p jobIds interval fuel t hlt hpoll h2] at h
          injection h with h'
          injection h' with h''
          rw [Prod.mk.injEq, Prod.mk.injEq] at h''
          obtain ⟨rfl, rfl, rfl⟩ := h''
          exact pollJobs_ok_spec p t jobIds completed _ _ hpoll
    · rw [waitLoop_succ_done p jobIds interval fuel t hlt] at h
      injection h with h'
      injection h' with h''
      rw [Prod.mk.injEq, Prod.mk.injEq] at h''
      obtain ⟨rfl, rfl, rfl⟩ := h''
      exact ⟨⟨[], by simp⟩, fun x hx => Or.inl hx, fun hnd => hnd, by simp⟩

theorem waitLoop_skip (p : Provider) (jobIds : List String)
    (interval : Nat) (id : String) :
    ∀ (fuel t : Nat) (completed : List String) (tE : Nat)
      (c : List String) (evs : List Event),
      id ∈ completed →
      waitLoop p jobIds interval fuel t completed = some (.ok (tE, c, evs)) →
      (∀ t', Event.query t' id ∉ evs) ∧
      (∀ n s, Event.completedLine id n s ∉ evs) ∧ id ∈ c := by
  intro fuel
  induction fuel with
  | zero =>
    intro t completed tE c evs _ h
    rw [waitLoop_zero] at h
    cases h
  | succ fuel ih =>
    intro t completed tE c evs hid h
    by_cases hlt : completed.length < jobIds.length
    · cases hpoll : pollJobs p t jobIds completed with
      | error e =>
        rw [waitLoop_succ_err p jobIds interval fuel t hlt hpoll] at h
        injection h with h'
        cases h'
      | ok pr =>
        obtain ⟨c', evs1⟩ := pr
        have hid' : id ∈ c' := by
          obtain ⟨⟨ext, hext⟩, _, _, _⟩ :=
            pollJobs_ok_spec p t jobIds completed c' evs1 hpoll
          rw [hext]; exact List.mem_append_left _ hid
        obtain ⟨hq1, hc1⟩ := pollJobs_skip p t id jobIds completed c' evs1 hid hpoll
        by_cases h2 : c'.length < jobIds.length
        · rw [waitLoop_succ_next p jobIds interval fuel t hlt hpoll h2] at h
          obtain ⟨r, hr, hfr⟩ := Option.map_eq_some'.mp h
          cases r with
          | error e => cases hfr
          | ok x =>
            obtain ⟨tE', c'', evs2⟩ := x
            injection hfr with hfr'
            rw [Prod.mk.injEq, Prod.mk.injEq] at hfr'
            obtain ⟨rfl, rfl, rfl⟩ := hfr'
            obtain ⟨ihq, ihc, ihmem⟩ := ih (t + 1) c' tE' c'' evs2 hid' hr
            refine ⟨?_, ?_, ihmem⟩
            · intro t' hc
              rcases List.mem_append.mp hc with hc' | hc'
              · exact hq1 t' hc'
              · simp only [List.mem_cons] at hc'
                rcases hc' with hc'' | hc''
                · cases hc''
                · exact ihq t' hc''
            · intro n s hc
              rcases List.mem_append.mp hc with hc' | hc'
              · exact hc1 n s hc'
              · simp only [List.mem_cons] at hc'
                rcases hc' with hc'' | hc''
                · cases hc''
                · exact ihc n s hc''
        · rw [waitLoop_succ_exit p jobIds interval fuel t hlt hpoll h2] at h
          injection h with h'
          injection h' with h''
          rw [Prod.mk.injEq, Prod.mk.injEq] at h''
          obtain ⟨rfl, rfl, rfl⟩ := h''
          exact ⟨hq1, hc1, hid'⟩
    · rw [waitLoop_succ_done p jobIds interval fuel t hlt] at h
      injection h with h'
      injection h' with h''
      rw [Prod.mk.injEq, Prod.mk.injEq] at h''
      obtain ⟨rfl, rfl, rfl⟩ := h''
      exact ⟨fun t' hc => List.not_mem_nil _ hc,
        fun n s hc => List.not_mem_nil _ hc, hid⟩

/-! ### Size bound on duplicate-free subsets of the job list -/

theorem nodup_length_le_dedup {l jobIds : List String}
    (hl : l.Nodup) (hs : ∀ x ∈ l, x ∈ jobIds) :
    l.length ≤ jobIds.dedup.length :=
  (hl.subperm (fun x hx => List.mem_dedup.mpr (hs x hx))).length_le

/-! ### Termination of the loop for distinct identifiers -/

theorem waitLoop_isSome_of_terminal (p : Provider) (jobIds : List String)
    (interval T : Nat) (hnd : jobIds.Nodup)
    (hterm : ∀ t, T ≤ t → ∀ id ∈ jobIds,
      ∃ d, p t id = .ok d ∧ isTerminal d.status = true) :
    ∀ (k t : Nat) (completed : List String),
      T ≤ t + k →
      (waitLoop p jobIds interval (k + 1) t completed).isSome = true := by
  intro k
  induction k with
  | zero =>
    intro t completed hT
    by_cases hlt : completed.length < jobIds.length
    · cases hpoll : pollJobs p t jobIds completed with
      | error e =>
        rw [waitLoop_succ_err p jobIds interval 0 t hlt hpoll]; rfl
      | ok pr =>
        obtain ⟨c', evs⟩ := pr
        have hin : ∀ i ∈ jobIds, i ∈ c' :=
          pollJobs_terminal_mem p t jobIds completed c' evs
            (hterm t (by omega)) hpoll
        have hlen : jobIds.length ≤ c'.length :=
          (hnd.subperm (fun x hx => hin x hx)).length_le
        have h2 : ¬ c'.length < jobIds.length := by omega
        rw [waitLoop_succ_exit p jobIds interval 0 t hlt hpoll h2]; rfl
    · rw [waitLoop_succ_done p jobIds interval 0 t hlt]; rfl
  | succ k ih =>
    intro t completed hT
    by_cases hlt : completed.length < jobIds.length
    · cases hpoll : pollJobs p t jobIds completed with
      | error e =>
        rw [waitLoop_succ_err p jobIds interval (k + 1) t hlt hpoll]; rfl
      | ok pr =>
        obtain ⟨c', evs⟩ := pr
        by_cases h2 : c'.length < jobIds.length
        · rw [waitLoop_succ_next p jobIds interval (k + 1) t hlt hpoll h2]
          rw [Option.isSome_map']
          exact ih (t + 1) c' (by omega)
        · rw [waitLoop_succ_exit p jobIds interval (k + 1) t hlt hpoll h2]; rfl
    · rw [waitLoop_succ_done p jobIds interval (k + 1) t hlt]; rfl

/-! ### Non-termination of the loop for duplicated identifiers -/

theorem waitLoop_none_of_dup (P : Nat → String → JobDesc)
    (jobIds : List String) (interval : Nat) (hdup : ¬ jobIds.Nodup) :
    ∀ (fuel t : Nat) (completed : List String),
      completed.Nodup → (∀ x ∈ completed, x ∈ jobIds) →
      waitLoop (totalProvider P) jobIds interval fuel t completed = none := by
  have hlt : jobIds.dedup.length < jobIds.length := by
    have hsub := List.dedup_sublist jobIds
    have hle := hsub.length_le
    rcases lt_or_eq_of_le hle with hx | hx
    · exact hx
    · exact absurd (List.dedup_eq_self.mp (hsub.eq_of_length hx)) hdup
  intro fuel
  induction fuel with
  | zero => intro t completed _ _; rfl
  | succ fuel ih =>
    intro t completed hnd hsub
    have h : completed.length < jobIds.length :=
      lt_of_le_of_lt (nodup_length_le_dedup hnd hsub) hlt
    obtain ⟨c', evs, hpoll⟩ := pollJobs_total P t jobIds completed
    obtain ⟨⟨ext, hext⟩, hmem, hndp, _⟩ :=
      pollJobs_ok_spec _ t jobIds completed c' evs hpoll
    have hc'nd : c'.Nodup := hndp hnd
    have hc'sub : ∀ x ∈ c', x ∈ jobIds :=
      fun x hx => (hmem x hx).elim (hsub x) (fun hj => hj)
    have h2 : c'.length < jobIds.length :=
      lt_of_le_of_lt (nodup_length_le_dedup hc'nd hc'sub) hlt
    rw [waitLoop_succ_next _ jobIds interval fuel t h hpoll h2,
      ih (t + 1) c' hc'nd hc'sub]
    rfl

/-! ### The final summary for a provider that never raises -/

theorem finalSummary_total (P : Nat → String → JobDesc) (t : Nat) :
    ∀ jobs, finalSummary (totalProvider P) t jobs = .ok (finalEvents P t jobs) := by
  intro jobs
  induction jobs with
  | nil => rfl
  | cons id rest ih =>
    show (finalSummary (totalProvider P) t rest).map _ = _
    rw [ih]
    rfl

/-! ### Lifting loop facts to `wait_for_jobs_completion` -/

theorem wait_isSome_of_waitLoop (p : Provider) (jobIds : List String)
    (interval fuel : Nat)
    (hp : (waitLoop p jobIds interval fuel 0 []).isSome = true) :
    (wait_for_jobs_completion p jobIds interval fuel).isSome = true := by
  unfold wait_for_jobs_completion
  split
  · rename_i hnone
    rw [hnone] at hp
    cases hp
  · rfl
  · split <;> rfl

theorem wait_none_of_dup (P : Nat → String → JobDesc) (jobIds : List String)
    (interval : Nat) (hdup : ¬ jobIds.Nodup) (fuel : Nat) :
    wait_for_jobs_completion (totalProvider P) jobIds interval fuel = none := by
  unfold wait_for_jobs_completion
  rw [waitLoop_none_of_dup P jobIds interval hdup fuel 0 [] List.nodup_nil
    (fun x hx => absurd hx (List.not_mem_nil x))]

/-! ### Concrete providers used in scenarios and witnesses -/

/-- A provider that reports every job SUCCEEDED at every pass. -/
def PallSucc : Nat → String → JobDesc :=
  fun _ id => ⟨"name-" ++ id, "SUCCEEDED", none⟩

/-- The provider of the spec's three-job scenario: pass 0 reports
RUNNING, RUNNING, SUCCEEDED; every later pass reports SUCCEEDED,
FAILED (reason "OOM"), SUCCEEDED. -/
def PC4 : Nat → String → JobDesc := fun t id =>
  if t = 0 then
    if id = "job-1" then ⟨"name-1", "RUNNING", none⟩
    else if id = "job-2" then ⟨"name-2", "RUNNING", none⟩
    else ⟨"name-3", "SUCCEEDED", none⟩
  else
    if id = "job-1" then ⟨"name-1", "SUCCEEDED", none⟩
    else if id = "job-2" then ⟨"name-2", "FAILED", some "OOM"⟩
    else ⟨"name-3", "SUCCEEDED", none⟩

/-- The polling-loop trace of the three-job scenario run. -/
def scenarioLoopTrace : List Event :=
  [.query 0 "job-1", .statusLine "job-1" "name-1" "RUNNING",
   .query 0 "job-2", .statusLine "job-2" "name-2" "RUNNING",
   .query 0 "job-3", .completedLine "job-3" "name-3" "SUCCEEDED",
   .sleep 60,
   .query 1 "job-1", .completedLine "job-1" "name-1" "SUCCEEDED",
   .query 1 "job-2", .completedLine "job-2" "name-2" "FAILED",
   .reasonLine "OOM"]

/-- A FAILED job description carrying the reason "OOM". -/
def dOOM : JobDesc := ⟨"name-a", "FAILED", some "OOM"⟩

/-- A provider that reports `dOOM` for every job at every pass. -/
def provC6 : Provider := fun _ _ => .ok dOOM

/-- A provider whose status query always raises. -/
def provErr : Provider := fun _ _ => .error "boom"

/-! ### The claims -/

/-- C1 counterexample: the claim quantifies over every list of job
identifiers, but for the duplicated list ["a", "a"] — with a provider
that reports every job SUCCEEDED from the very first query — the tracker
never returns: the run exhausts every fuel bound, because the completed
set (a set of identifiers) can never reach the length of the list. -/
theorem C1_counterexample :
    ¬ ∃ fuel,
      (wait_for_jobs_completion (totalProvider PallSucc) ["a", "a"] 60
        fuel).isSome = true := by
  rintro ⟨fuel, h⟩
  rw [wait_none_of_dup PallSucc ["a", "a"] 60 (by decide) fuel] at h
  cases h

/-- C1 (amended): for every list of pairwise-distinct job identifiers of
size N ≥ 0, `wait_for_jobs_completion` terminates once the external
status provider reports all N jobs in a terminal state (from some pass T
onward); for N = 0 the loop body is never entered and the function
returns immediately with an empty trace — no query, no sleep. -/
theorem C1_amended_termination (p : Provider) (jobIds : List String)
    (interval T : Nat) (hnd : jobIds.Nodup)
    (hterm : ∀ t, T ≤ t → ∀ id ∈ jobIds,
      ∃ d, p t id = .ok d ∧ isTerminal d.status = true) :
    (∃ fuel,
      (wait_for_jobs_completion p jobIds interval fuel).isSome = true) ∧
    wait_for_jobs_completion p [] interval 1 = some (.ok ([], [])) := by
  refine ⟨⟨T + 1, ?_⟩, rfl⟩
  exact wait_isSome_of_waitLoop p jobIds interval (T + 1)
    (waitLoop_isSome_of_terminal p jobIds interval T hnd hterm T 0 [] (by omega))

/-- C1 witness: the amended termination theorem applied to the two
distinct jobs ["a", "b"] under the always-SUCCEEDED provider. -/
theorem C1_witness :
    (∃ fuel,
      (wait_for_jobs_completion (totalProvider PallSucc) ["a", "b"] 60
        fuel).isSome = true) ∧
    wait_for_jobs_completion (totalProvider PallSucc) [] 60 1 =
      some (.ok ([], [])) :=
  C1_amended_termination (totalProvider PallSucc) ["a", "b"] 60 0 (by decide)
    (fun t _ id _ => ⟨PallSucc t id, rfl, rfl⟩)

/-- C2: once a job identifier is in the completed set, the remainder of
the polling loop — every later polling pass — never queries the status
provider for it again and never re-prints its completion line, and the
identifier stays recorded in the completed set on exit. -/
theorem C2_idempotent_skip (p : Provider) (jobIds : List String)
    (interval fuel t : Nat) (completed : List String) (id : String)
    (tE : Nat) (c : List String) (evs : List Event)
    (hid : id ∈ completed)
    (hw : waitLoop p jobIds interval fuel t completed =
      some (.ok (tE, c, evs))) :
    (∀ t', Event.query t' id ∉ evs) ∧
    (∀ n s, Event.completedLine id n s ∉ evs) ∧ id ∈ c :=
  waitLoop_skip p jobIds interval id fuel t completed tE c evs hid hw

/-- C2 witness: resuming the loop on jobs ["a", "b"] with "a" already
completed, the remaining trace queries only "b". -/
theorem C2_witness :
    (∀ t', Event.query t' "a" ∉
      [Event.query 0 "b", Event.completedLine "b" "name-b" "SUCCEEDED"]) ∧
    (∀ n s, Event.completedLine "a" n s ∉
      [Event.query 0 "b", Event.completedLine "b" "name-b" "SUCCEEDED"]) ∧
    "a" ∈ ["a", "b"] :=
  C2_idempotent_skip (totalProvider PallSucc) ["a", "b"] 60 2 0 ["a"] "a" 1
    ["a", "b"]
    [Event.query 0 "b", Event.completedLine "b" "name-b" "SUCCEEDED"]
    (by decide) rfl

/-- C3: whenever the tracker returns normally, its trace is the polling
trace followed by the final summary, which re-queries and reports each
supplied identifier exactly once, in exactly the order the identifiers
were supplied — whatever order the jobs completed in — and no
final-summary event occurs during polling. -/
theorem C3_final_summary_order (P : Nat → String → JobDesc)
    (jobIds : List String) (interval fuel : Nat) (c : List String)
    (tr : List Event)
    (hw : wait_for_jobs_completion (totalProvider P) jobIds interval fuel =
      some (.ok (c, tr))) :
    ∃ tEnd evs,
      waitLoop (totalProvider P) jobIds interval fuel 0 [] =
        some (.ok (tEnd, c, evs)) ∧
      tr = evs ++ finalEvents P tEnd jobIds ∧
      (∀ e ∈ evs, isLoopEvent e = true) := by
  unfold wait_for_jobs_completion at hw
  split at hw
  · cases hw
  · rename_i e heq
    injection hw with hw'
    cases hw'
  · rename_i tE c0 evs heq
    rw [finalSummary_total P tE jobIds] at hw
    simp only [] at hw
    injection hw with hw'
    injection hw' with hw''
    rw [Prod.mk.injEq] at hw''
    obtain ⟨rfl, rfl⟩ := hw''
    obtain ⟨_, _, _, hevs⟩ :=
      waitLoop_ok_spec (totalProvider P) jobIds interval fuel 0 [] tE c0 evs heq
    exact ⟨tE, evs, heq, rfl, hevs⟩

/-- C3 witness: the run on ["a", "b"] under the always-SUCCEEDED
provider decomposes into its polling trace and its in-order final
summary. -/
theorem C3_witness :
    ∃ tEnd evs,
      waitLoop (totalProvider PallSucc) ["a", "b"] 60 2 0 [] =
        some (.ok (tEnd, ["a", "b"], evs)) ∧
      [Event.query 0 "a", Event.completedLine "a" "name-a" "SUCCEEDED",
       Event.query 0 "b", Event.completedLine "b" "name-b" "SUCCEEDED",
       Event.finalQuery "a", Event.finalLine "a" "name-a" "SUCCEEDED",
       Event.finalQuery "b", Event.finalLine "b" "name-b" "SUCCEEDED"] =
        evs ++ finalEvents PallSucc tEnd ["a", "b"] ∧
      (∀ e ∈ evs, isLoopEvent e = true) :=
  C3_final_summary_order PallSucc ["a", "b"] 60 2 ["a", "b"]
    [Event.query 0 "a", Event.completedLine "a" "name-a" "SUCCEEDED",
     Event.query 0 "b", Event.completedLine "b" "name-b" "SUCCEEDED",
     Event.finalQuery "a", Event.finalLine "a" "name-a" "SUCCEEDED",
     Event.finalQuery "b", Event.finalLine "b" "name-b" "SUCCEEDED"] rfl

/-- C4: in the spec's three-job scenario — pass 1 reports RUNNING,
RUNNING, SUCCEEDED and pass 2 reports SUCCEEDED, FAILED("OOM"),
SUCCEEDED — the tracker executes exactly 2 polling passes, the failure
reason "OOM" is printed for job 2, and the final summary reports
SUCCEEDED, FAILED, SUCCEEDED in submission order even though the jobs
completed in the order job-3, job-1, job-2. -/
theorem C4_scenario_two_passes :
    waitLoop (totalProvider PC4) ["job-1", "job-2", "job-3"] 60 10 0 [] =
      some (.ok (2, ["job-3", "job-1", "job-2"], scenarioLoopTrace)) ∧
    Event.reasonLine "OOM" ∈ scenarioLoopTrace ∧
    wait_for_jobs_completion (totalProvider PC4)
        ["job-1", "job-2", "job-3"] 60 10 =
      some (.ok (["job-3", "job-1", "job-2"],
        scenarioLoopTrace ++
          [.finalQuery "job-1", .finalLine "job-1" "name-1" "SUCCEEDED",
           .finalQuery "job-2", .finalLine "job-2" "name-2" "FAILED",
           .finalQuery "job-3", .finalLine "job-3" "name-3" "SUCCEEDED"])) :=
  ⟨rfl, by decide, rfl⟩

/-- C5: a single job already SUCCEEDED on the first query: the tracker
(given ample fuel) executes exactly one polling pass, and its trace has
no sleep event — the inter-pass suspension is never executed. -/
theorem C5_single_job_one_pass :
    waitLoop (totalProvider PallSucc) ["job-1"] 60 5 0 [] =
      some (.ok (1, ["job-1"],
        [.query 0 "job-1",
         .completedLine "job-1" "name-job-1" "SUCCEEDED"])) ∧
    ([Event.query 0 "job-1",
      Event.completedLine "job-1" "name-job-1" "SUCCEEDED"].all
        (fun e => !(isSleep e))) = true :=
  ⟨rfl, by decide⟩

/-- C6: a job whose queried status is terminal — FAILED exactly like
SUCCEEDED — is added to the completed set and the pass simply continues
with the remaining jobs (no retry, no abort); the one-line completion
observation is always emitted, and the failure reason is emitted when
the status is FAILED and a reason is present. -/
theorem C6_failed_like_succeeded (p : Provider) (t : Nat) (id : String)
    (rest completed : List String) (d : JobDesc)
    (hmem : id ∉ completed) (hq : p t id = .ok d)
    (hterm : isTerminal d.status = true) :
    pollJobs p t (id :: rest) completed =
      (pollJobs p t rest (completed ++ [id])).map
        (fun pr => (pr.1, terminalEvents t id d ++ pr.2)) ∧
    Event.completedLine id d.jobName d.status ∈ terminalEvents t id d ∧
    (∀ r, d.status = "FAILED" → d.statusReason = some r →
      Event.reasonLine r ∈ terminalEvents t id d) := by
  refine ⟨pollJobs_cons_term p t rest hmem hq hterm, ?_, ?_⟩
  · simp [terminalEvents]
  · intro r hs hr
    simp [terminalEvents, hs, hr]

/-- C6 witness: a FAILED job with reason "OOM" at the head of a pass. -/
theorem C6_witness :
    pollJobs provC6 0 ["a", "b"] [] =
      (pollJobs provC6 0 ["b"] ["a"]).map
        (fun pr => (pr.1, terminalEvents 0 "a" dOOM ++ pr.2)) ∧
    Event.completedLine "a" dOOM.jobName dOOM.status ∈
      terminalEvents 0 "a" dOOM ∧
    (∀ r, dOOM.status = "FAILED" → dOOM.statusReason = some r →
      Event.reasonLine r ∈ terminalEvents 0 "a" dOOM) :=
  C6_failed_like_succeeded provC6 0 "a" ["b"] [] dOOM
    (List.not_mem_nil "a") rfl (by decide)

/-- C7: a raise in the external status query is not caught: the
exception value propagates unchanged to the caller as the result of
`wait_for_jobs_completion`, and the polling loop is aborted — the
outcome does not depend on the remaining jobs or on any later pass. -/
theorem C7_error_propagates (p : Provider) (id : String)
    (rest : List String) (interval fuel : Nat) (e : String)
    (hq : p 0 id = .error e) (hfuel : 1 ≤ fuel) :
    wait_for_jobs_completion p (id :: rest) interval fuel =
      some (.error e) := by
  obtain ⟨k, rfl⟩ : ∃ k, fuel = k + 1 := ⟨fuel - 1, by omega⟩
  have hpoll : pollJobs p 0 (id :: rest) [] = .error e :=
    pollJobs_cons_err p 0 rest (List.not_mem_nil id) hq
  have hlen : ([] : List String).length < (id :: rest).length := by simp
  unfold wait_for_jobs_completion
  rw [waitLoop_succ_err p (id :: rest) interval k 0 hlen hpoll]

/-- C7 witness: a provider that raises "boom" on the first query. -/
theorem C7_witness :
    wait_for_jobs_completion provErr ["a"] 60 1 = some (.error "boom") :=
  C7_error_propagates provErr "a" [] 60 1 "boom" rfl (by decide)

/-- C8: across the whole polling loop the completed set only grows — the
final set is the initial set plus newly appended identifiers, nothing is
ever removed — and, starting from a duplicate-free set of supplied
identifiers, it stays duplicate-free and its size never exceeds the
number of distinct supplied job identifiers. -/
theorem C8_completed_monotone_bounded (p : Provider)
    (jobIds : List String) (interval fuel t : Nat)
    (completed : List String) (tE : Nat) (c : List String)
    (evs : List Event)
    (hw : waitLoop p jobIds interval fuel t completed =
      some (.ok (tE, c, evs))) :
    (∃ ext, c = completed ++ ext) ∧
    (completed.Nodup → (∀ x ∈ completed, x ∈ jobIds) →
      c.Nodup ∧ c.length ≤ jobIds.dedup.length) := by
  obtain ⟨hext, hmem, hnd, _⟩ :=
    waitLoop_ok_spec p jobIds interval fuel t completed tE c evs hw
  refine ⟨hext, fun h1 h2 => ?_⟩
  have hc := hnd h1
  exact ⟨hc, nodup_length_le_dedup hc
    (fun x hx => (hmem x hx).elim (h2 x) (fun hj => hj))⟩

/-- C8 witness: the run on ["a", "b"] from the empty completed set. -/
theorem C8_witness :
    (∃ ext, ["a", "b"] = [] ++ ext) ∧
    (([] : List String).Nodup → (∀ x ∈ ([] : List String), x ∈ ["a", "b"]) →
      (["a", "b"] : List String).Nodup ∧
      (["a", "b"] : List String).length ≤
        (["a", "b"] : List String).dedup.length) :=
  C8_completed_monotone_bounded (totalProvider PallSucc) ["a", "b"] 60 2 0
    [] 1 ["a", "b"]
    [Event.query 0 "a", Event.completedLine "a" "name-a" "SUCCEEDED",
     Event.query 0 "b", Event.completedLine "b" "name-b" "SUCCEEDED"] rfl

/-- C9: if the supplied identifier list contains a duplicate, the loop
can never exit — whatever the (never-raising) provider reports, and in
particular even when it reports every job terminal — because the
completed set of identifiers can never reach the length of the list:
the run returns `none` for every fuel bound. -/
theorem C9_duplicate_ids_no_termination (P : Nat → String → JobDesc)
    (jobIds : List String) (interval : Nat) (hdup : ¬ jobIds.Nodup) :
    ∀ fuel,
      wait_for_jobs_completion (totalProvider P) jobIds interval fuel =
        none :=
  fun fuel => wait_none_of_dup P jobIds interval hdup fuel

/-- C9 witness: the duplicated list ["a", "a"] under the
always-SUCCEEDED provider, at fuel 5. -/
theorem C9_witness :
    wait_for_jobs_completion (totalProvider PallSucc) ["a", "a"] 60 5 =
      none :=
  C9_duplicate_ids_no_termination PallSucc ["a", "a"] 60 (by decide) 5

/-- C10: in the Lab 2 inference script, a request whose mode is neither
'logits' nor 'embeddings' makes `predict_fn` raise ValueError with the
tokenizer call as the only model-artifact interaction — no forward pass
runs — while a JSON request omitting 'mode' is defaulted to 'logits' by
`input_fn`, so the logits path (a plain forward pass) is taken. -/
theorem C10_predict_mode_validation (seq m : String) (req : Request)
    (hm1 : m ≠ "logits") (hm2 : m ≠ "embeddings") (hreq : req.mode = none) :
    predict_fn seq m =
      ([ModelCall.encode seq], .error ("Unknown mode: " ++ m)) ∧
    input_fn req "application/json" = .ok (req.sequence, "logits") ∧
    predict_fn req.sequence "logits" =
      ([ModelCall.encode req.sequence, ModelCall.forward false],
        .ok "logits") := by
  refine ⟨?_, ?_, rfl⟩
  · simp [predict_fn, hm1, hm2]
  · simp [input_fn, hreq]

/-- C10 witness: mode "foo" is rejected without a forward pass; a
request without a mode runs the logits path. -/
theorem C10_witness :
    predict_fn "XYZ" "foo" =
      ([ModelCall.encode "XYZ"], .error ("Unknown mode: " ++ "foo")) ∧
    input_fn ⟨"MSV", none⟩ "application/json" = .ok ("MSV", "logits") ∧
    predict_fn "MSV" "logits" =
      ([ModelCall.encode "MSV", ModelCall.forward false], .ok "logits") :=
  C10_predict_mode_validation "XYZ" "foo" ⟨"MSV", none⟩ (by decide)
    (by decide) rfl
